import Mathlib

/-!
Shallow embedding of the `stopwatch` class (src/unnamed/part_000, a C++
header built on `<chrono>`).

Modelling choices:
* Time points and durations of `std::chrono::steady_clock` are integer tick
  counts; we model them as `ℤ` (the claims under verification are about
  tolerance-level arithmetic, not about 64-bit overflow).
* `long double` (the type of `m_speed` and of the intermediate product in
  `impl_now`) is modelled as `ℚ`: an exact wide real representation, matching
  the role the code gives it (the product is formed exactly, then truncated
  once to the tick representation).
* `std::chrono::duration_cast` from a `long double`-valued duration to the
  integer-tick `duration` is `static_cast` to the integer rep, i.e. truncation
  toward zero; `rtrunc` below models it.
* The monotonic source `steady_clock::now()` is an external input: each
  operation that reads it once takes one explicit reading `steady_now : ℤ`.
  Methods are translated state-passing style: a method that can mutate the
  object maps the pre-state to (result, post-state).
-/

/-- Truncation toward zero of a rational to an integer: the conversion
performed by `duration_cast` from a floating-rep duration to the integer-tick
`duration` in `impl_now`. -/
def rtrunc (q : ℚ) : ℤ :=
  if 0 ≤ q then ⌊q⌋ else ⌈q⌉

/-- The `stopwatch` class state: `m_sync` is the pair
(`steady_time_point`, `time_point`) of the last synchronization, stored as
tick counts since the respective epochs; `m_speed` is the current speed. -/
structure stopwatch where
  m_sync : ℤ × ℤ
  m_speed : ℚ
deriving DecidableEq, Repr

namespace stopwatch

/-- Method `stopwatch::impl_now`: reads the steady clock once (`steady_now`), and
returns the pair `{steady_now, time_point(before_sync + after_sync)}` with
`before_sync = m_sync.second.time_since_epoch()` and
`after_sync = duration_cast<duration>((steady_now - m_sync.first) * m_speed)`. -/
def impl_now (sw : stopwatch) (steady_now : ℤ) : ℤ × ℤ :=
  let before_sync := sw.m_sync.2
  let after_sync := rtrunc (((steady_now - sw.m_sync.1 : ℤ) : ℚ) * sw.m_speed)
  (steady_now, before_sync + after_sync)

/-- Method `stopwatch::now`: returns `impl_now().second`.  The method mutates no
member, so the state-passing translation returns the pre-state unchanged;
`now` is the returned time point alone. -/
def now (sw : stopwatch) (steady_now : ℤ) : ℤ :=
  (sw.impl_now steady_now).2

/-- State-passing form of `stopwatch::now` (result, post-state): the body is
`return impl_now().second;`, which assigns to no member. -/
def now_call (sw : stopwatch) (steady_now : ℤ) : ℤ × stopwatch :=
  ((sw.impl_now steady_now).2, sw)

/-- Method `stopwatch::set_speed`: `auto [steady_now, my_now] = impl_now();
m_sync = {steady_now, my_now}; m_speed = speed;`. -/
def set_speed (sw : stopwatch) (steady_now : ℤ) (speed : ℚ) : stopwatch :=
  let p := sw.impl_now steady_now
  { m_sync := p, m_speed := speed }

/-- Accessor `stopwatch::speed`: returns `m_speed`. -/
def speed (sw : stopwatch) : ℚ :=
  sw.m_speed

/-- State-passing form of the `stopwatch::speed` accessor (result,
post-state): the body assigns to no member. -/
def speed_call (sw : stopwatch) : ℚ × stopwatch :=
  (sw.m_speed, sw)

/-- The `stopwatch(long double speed = 1)` constructor: reads the steady
clock once and sets `m_sync = {steady_now, time_point(steady_now.time_since_epoch())}`,
`m_speed = speed` (default `1`). -/
def construct (steady_now : ℤ) (speed : ℚ) : stopwatch :=
  { m_sync := (steady_now, steady_now), m_speed := speed }

end stopwatch

/-! Basic facts about the truncation `rtrunc`. -/

theorem rtrunc_intCast (n : ℤ) : rtrunc (n : ℚ) = n := by
  unfold rtrunc
  split <;> simp

theorem rtrunc_zero : rtrunc 0 = 0 := by
  simpa using rtrunc_intCast 0

/-- Truncation toward zero changes a value by strictly less than one. -/
theorem abs_rtrunc_sub_lt (q : ℚ) : |(rtrunc q : ℚ) - q| < 1 := by
  unfold rtrunc
  split
  · rw [abs_lt]
    constructor <;> linarith [Int.floor_le q, Int.sub_one_lt_floor q]
  · rw [abs_lt]
    constructor <;> linarith [Int.le_ceil q, Int.ceil_lt_add_one q]

/-- Truncation toward zero is monotone. -/
theorem rtrunc_mono {q r : ℚ} (h : q ≤ r) : rtrunc q ≤ rtrunc r := by
  unfold rtrunc
  split
  · split
    · exact Int.floor_le_floor h
    · linarith [le_trans (by assumption : (0 : ℚ) ≤ q) h, (by assumption : ¬0 ≤ r)]
  · split
    · calc ⌈q⌉ ≤ ⌈(0 : ℚ)⌉ := Int.ceil_le_ceil (le_of_not_le (by assumption))
        _ = 0 := by simp
        _ ≤ ⌊r⌋ := Int.floor_nonneg.mpr (by assumption)
    · exact Int.ceil_le_ceil h

/-- A drop of at least two in the exact value forces a strict drop in the
truncated value. -/
theorem rtrunc_lt_of_le_sub_two {q r : ℚ} (h : q ≤ r - 2) : rtrunc q < rtrunc r := by
  have hq := abs_rtrunc_sub_lt q
  have hr := abs_rtrunc_sub_lt r
  rw [abs_lt] at hq hr
  have : (rtrunc q : ℚ) < (rtrunc r : ℚ) := by linarith
  exact_mod_cast this

/-! Error of `now` against the exact piecewise-linear model. -/

/-- Within the current segment, `now` differs from the exact linear value
`syncLogical + (t - syncMonotonic) * rate` by strictly less than one tick. -/
theorem now_sub_linear_abs_lt (sw : stopwatch) (t : ℤ) :
    |(sw.now t : ℚ) - ((sw.m_sync.2 : ℚ) + ((t - sw.m_sync.1 : ℤ) : ℚ) * sw.m_speed)| < 1 := by
  unfold stopwatch.now stopwatch.impl_now
  have h := abs_rtrunc_sub_lt (((t - sw.m_sync.1 : ℤ) : ℚ) * sw.m_speed)
  have e : ((sw.m_sync.2 + rtrunc (((t - sw.m_sync.1 : ℤ) : ℚ) * sw.m_speed) : ℤ) : ℚ)
      - ((sw.m_sync.2 : ℚ) + ((t - sw.m_sync.1 : ℤ) : ℚ) * sw.m_speed)
      = (rtrunc (((t - sw.m_sync.1 : ℤ) : ℚ) * sw.m_speed) : ℚ)
        - ((t - sw.m_sync.1 : ℤ) : ℚ) * sw.m_speed := by
    push_cast
    ring
  simpa [e] using h

/-! Sequences of rate changes and the exact per-segment sum. -/

/-- Apply a sequence of `set_speed` calls; each list entry is the steady-clock
reading at which the call happens together with the new speed. -/
def run_set_speeds (sw : stopwatch) : List (ℤ × ℚ) → stopwatch
  | [] => sw
  | (t, r) :: rest => run_set_speeds (sw.set_speed t r) rest

/-- The exact sum of `(segment monotonic duration) * (segment rate)` for the
piecewise-constant-rate model: starting at reading `t0` with rate `r0`, with
rate changes at the listed readings, ending at reading `tB`. -/
def seg_sum (t0 : ℤ) (r0 : ℚ) : List (ℤ × ℚ) → ℤ → ℚ
  | [], tB => ((tB - t0 : ℤ) : ℚ) * r0
  | (t1, r1) :: rest, tB => ((t1 - t0 : ℤ) : ℚ) * r0 + seg_sum t1 r1 rest tB

/-! A small operation language over a stopwatch instance: one entry per public
method call, carrying the steady-clock reading the call observes (when the
method reads the clock).  `run` interprets a call sequence. -/

/-- One public method call on a `stopwatch`. -/
inductive Op where
  | callNow (steady_now : ℤ) : Op
  | callSetSpeed (steady_now : ℤ) (speed : ℚ) : Op
  | callSpeed : Op
deriving DecidableEq, Repr

/-- The value returned by one method call. -/
inductive Output where
  | timePoint (v : ℤ) : Output
  | rateValue (r : ℚ) : Output
  | unitValue : Output
deriving DecidableEq, Repr

/-- Execute one method call: the returned value and the post-state. -/
def step (sw : stopwatch) : Op → Output × stopwatch
  | .callNow t => (.timePoint (sw.now_call t).1, (sw.now_call t).2)
  | .callSetSpeed t r => (.unitValue, sw.set_speed t r)
  | .callSpeed => (.rateValue (sw.speed_call).1, (sw.speed_call).2)

/-- Execute a sequence of method calls, collecting every returned value and
the final state. -/
def run (sw : stopwatch) : List Op → List Output × stopwatch
  | [] => ([], sw)
  | op :: rest =>
    let p := step sw op
    let q := run p.2 rest
    (p.1 :: q.1, q.2)

/-! Claim theorems. -/

/-- C1.  Continuity across a rate change: for every stopwatch state and every
steady-clock reading `t` at which `set_speed(newRate)` is invoked, `now()`
evaluated at that same reading after the call returns exactly the value
`now()` returns at that reading before the call: only the slope changes,
there is no jump. -/
theorem claim_C1 (sw : stopwatch) (t : ℤ) (newRate : ℚ) :
    (sw.set_speed t newRate).now t = sw.now t := by
  simp [stopwatch.set_speed, stopwatch.now, stopwatch.impl_now, rtrunc_zero]

/-- C2.  `now()` correctness: for every state with synchronization point
`(syncMonotonic, syncLogical) = m_sync` and rate `m_speed`, and every
steady-clock reading `t ≥ syncMonotonic` (the single reading the call takes),
`now()` returns `syncLogical + trunc((t - syncMonotonic) * rate)`, where the
product is formed exactly in the wide representation and truncated once to
the tick representation — hence the result is within one tick of the exact
value `syncLogical + (t - syncMonotonic) * rate`. -/
theorem claim_C2 (sw : stopwatch) (t : ℤ) (h : sw.m_sync.1 ≤ t) :
    sw.now t = sw.m_sync.2 + rtrunc (((t - sw.m_sync.1 : ℤ) : ℚ) * sw.m_speed) ∧
    |(sw.now t : ℚ) - ((sw.m_sync.2 : ℚ) + ((t - sw.m_sync.1 : ℤ) : ℚ) * sw.m_speed)| < 1 :=
  ⟨rfl, now_sub_linear_abs_lt sw t⟩

/-- Witness for C2 at the concrete state `m_sync = (0, 0)`, `m_speed = 3/2`,
reading `t = 5`. -/
theorem claim_C2_witness :
    (stopwatch.mk (0, 0) (3/2)).m_sync.1 ≤ 5 ∧
    ((stopwatch.mk (0, 0) (3/2)).now 5
        = (stopwatch.mk (0, 0) (3/2)).m_sync.2
          + rtrunc (((5 - (stopwatch.mk (0, 0) (3/2)).m_sync.1 : ℤ) : ℚ)
            * (stopwatch.mk (0, 0) (3/2)).m_speed) ∧
      |((stopwatch.mk (0, 0) (3/2)).now 5 : ℚ)
        - (((stopwatch.mk (0, 0) (3/2)).m_sync.2 : ℚ)
          + ((5 - (stopwatch.mk (0, 0) (3/2)).m_sync.1 : ℤ) : ℚ)
            * (stopwatch.mk (0, 0) (3/2)).m_speed)| < 1) :=
  ⟨by decide, claim_C2 (stopwatch.mk (0, 0) (3/2)) 5 (by decide)⟩

/-- C3.  `set_speed(newRate)` step semantics: the call computes
`(monotonicNow, logicalNow) = impl_now()` with the old rate (the same formula
as `now()`), rebinds the synchronization pair to exactly that pair, and only
then stores the new rate; the captured logical time never depends on the new
rate. -/
theorem claim_C3 (sw : stopwatch) (t : ℤ) (newRate : ℚ) :
    (sw.set_speed t newRate).m_sync.1 = (sw.impl_now t).1 ∧
    (sw.set_speed t newRate).m_sync.2 = (sw.impl_now t).2 ∧
    (sw.set_speed t newRate).m_sync.2 = sw.now t ∧
    (sw.set_speed t newRate).m_speed = newRate ∧
    ∀ otherRate : ℚ,
      (sw.set_speed t newRate).m_sync.2 = (sw.set_speed t otherRate).m_sync.2 :=
  ⟨rfl, rfl, rfl, rfl, fun _ => rfl⟩

/-- C5.  `now()` has no side effects: in state-passing form the call returns
the pre-state unchanged — the synchronization pair and the speed are
untouched. -/
theorem claim_C5 (sw : stopwatch) (t : ℤ) :
    (sw.now_call t).2 = sw ∧
    (sw.now_call t).2.m_sync = sw.m_sync ∧
    (sw.now_call t).2.m_speed = sw.m_speed :=
  ⟨rfl, rfl, rfl⟩

/-- C7.  Rate accessor fidelity and purity: after `set_speed(x)` the accessor
`speed()` returns exactly `x` (this covers in particular
`x ∈ {0, 1, -1, 5/2, -3/10}`), and `speed()` leaves the state unchanged. -/
theorem claim_C7 (sw : stopwatch) (t : ℤ) (x : ℚ) :
    ((sw.set_speed t x).speed_call).1 = x ∧
    ((sw.set_speed t x).speed_call).2 = sw.set_speed t x ∧
    (sw.speed_call).2 = sw :=
  ⟨rfl, rfl, rfl⟩

/-- C8.  Default alignment at construction: a stopwatch constructed at
steady-clock reading `t0` with the default speed `1` has `now()` at any later
reading `t` exactly equal to the steady clock's own time-since-epoch `t`
(in particular within one tick of it). -/
theorem claim_C8 (t0 t : ℤ) (h : t0 ≤ t) :
    (stopwatch.construct t0 1).now t = t ∧
    |((stopwatch.construct t0 1).now t : ℚ) - (t : ℚ)| ≤ 1 := by
  have e : (stopwatch.construct t0 1).now t = t := by
    unfold stopwatch.construct stopwatch.now stopwatch.impl_now
    simp only [mul_one, rtrunc_intCast]
    omega
  exact ⟨e, by rw [e]; simp⟩

/-- Witness for C8 at construction reading `0` and later reading `7`. -/
theorem claim_C8_witness :
    (0 : ℤ) ≤ 7 ∧
    ((stopwatch.construct 0 1).now 7 = 7 ∧
      |((stopwatch.construct 0 1).now 7 : ℚ) - (7 : ℚ)| ≤ 1) :=
  ⟨by decide, claim_C8 0 7 (by decide)⟩

/-- C6 counterexample.  The claim as stated fails: with the concrete state
`m_sync = (0, 0)`, `m_speed = -1/2` and the steady clock advancing from
reading `0` to reading `1`, the two successive `now()` values are equal
(`trunc(-1/2) = 0`), not strictly decreasing. -/
theorem claim_C6_counterexample :
    (stopwatch.mk (0, 0) (-(1/2))).m_speed < 0 ∧
    (0 : ℤ) < 1 ∧
    ¬ (stopwatch.mk (0, 0) (-(1/2))).now 1 < (stopwatch.mk (0, 0) (-(1/2))).now 0 := by
  refine ⟨by norm_num, by decide, ?_⟩
  have h1 : (stopwatch.mk (0, 0) (-(1/2))).now 1 = 0 := by
    norm_num [stopwatch.now, stopwatch.impl_now, rtrunc]
  have h0 : (stopwatch.mk (0, 0) (-(1/2))).now 0 = 0 := by
    norm_num [stopwatch.now, stopwatch.impl_now, rtrunc]
  omega

/-- C6 (amended).  If the rate is zero, any two `now()` readings are equal.
If the rate is negative, `now()` is non-increasing in the steady reading, and
returns strictly decreasing values as soon as the elapsed steady time times
the magnitude of the rate reaches two ticks; for smaller advances truncation
toward zero can make successive readings equal.  (The strictly decreasing
instances also show `now()` is not monotonically increasing in general.) -/
theorem claim_C6_amended (sw : stopwatch) (t1 t2 : ℤ) :
    (sw.m_speed = 0 → sw.now t1 = sw.now t2) ∧
    (sw.m_speed < 0 → t1 ≤ t2 → sw.now t2 ≤ sw.now t1) ∧
    (sw.m_speed < 0 → 2 ≤ ((t2 - t1 : ℤ) : ℚ) * (-sw.m_speed) →
      sw.now t2 < sw.now t1) := by
  refine ⟨fun hz => ?_, fun hneg hle => ?_, fun hneg htwo => ?_⟩
  · simp [stopwatch.now, stopwatch.impl_now, hz, rtrunc_zero]
  · unfold stopwatch.now stopwatch.impl_now
    have hmul : ((t2 - sw.m_sync.1 : ℤ) : ℚ) * sw.m_speed
        ≤ ((t1 - sw.m_sync.1 : ℤ) : ℚ) * sw.m_speed := by
      apply mul_le_mul_of_nonpos_right _ (le_of_lt hneg)
      have hle' : (t1 : ℚ) ≤ (t2 : ℚ) := by exact_mod_cast hle
      push_cast
      linarith
    exact add_le_add_left (rtrunc_mono hmul) _
  · unfold stopwatch.now stopwatch.impl_now
    have hmul : ((t2 - sw.m_sync.1 : ℤ) : ℚ) * sw.m_speed
        ≤ ((t1 - sw.m_sync.1 : ℤ) : ℚ) * sw.m_speed - 2 := by
      push_cast at htwo ⊢
      nlinarith
    exact add_lt_add_left (rtrunc_lt_of_le_sub_two hmul) _

/-- Witness for the amended C6: at `m_sync = (0, 0)` with rate `0` two
readings agree; with rate `-1` the reading at steady time `2` is at most, and
in fact strictly below, the reading at steady time `0`. -/
theorem claim_C6_amended_witness :
    ((stopwatch.mk (0, 0) 0).m_speed = 0 ∧
      (stopwatch.mk (0, 0) 0).now 3 = (stopwatch.mk (0, 0) 0).now 5) ∧
    ((stopwatch.mk (0, 0) (-1)).m_speed < 0 ∧ (0 : ℤ) ≤ 2 ∧
      (stopwatch.mk (0, 0) (-1)).now 2 ≤ (stopwatch.mk (0, 0) (-1)).now 0) ∧
    (2 ≤ ((2 - 0 : ℤ) : ℚ) * (-(stopwatch.mk (0, 0) (-1)).m_speed) ∧
      (stopwatch.mk (0, 0) (-1)).now 2 < (stopwatch.mk (0, 0) (-1)).now 0) :=
  ⟨⟨rfl, (claim_C6_amended (stopwatch.mk (0, 0) 0) 3 5).1 rfl⟩,
   ⟨by norm_num, by decide,
     (claim_C6_amended (stopwatch.mk (0, 0) (-1)) 0 2).2.1 (by norm_num) (by decide)⟩,
   ⟨by norm_num,
     (claim_C6_amended (stopwatch.mk (0, 0) (-1)) 0 2).2.2 (by norm_num) (by norm_num)⟩⟩

/-- Error bound for `now` after any sequence of rate changes, anchored at the
pre-sequence synchronization point: the result is within `length + 1` ticks of
the exact per-segment sum. -/
theorem run_now_err : ∀ (changes : List (ℤ × ℚ)) (sw : stopwatch) (tB : ℤ),
    |(stopwatch.now (run_set_speeds sw changes) tB : ℚ)
        - ((sw.m_sync.2 : ℚ) + seg_sum sw.m_sync.1 sw.m_speed changes tB)|
      < changes.length + 1
  | [], sw, tB => by
      simpa [run_set_speeds, seg_sum] using now_sub_linear_abs_lt sw tB
  | (t1, r1) :: rest, sw, tB => by
      have ih := run_now_err rest (sw.set_speed t1 r1) tB
      have h1 := now_sub_linear_abs_lt sw t1
      have e1 : (sw.set_speed t1 r1).m_sync.1 = t1 := rfl
      have e2 : (sw.set_speed t1 r1).m_sync.2 = sw.now t1 := rfl
      have e3 : (sw.set_speed t1 r1).m_speed = r1 := rfl
      rw [e1, e2, e3] at ih
      simp only [run_set_speeds, seg_sum, List.length_cons]
      rw [abs_lt] at ih h1 ⊢
      push_cast at ih h1 ⊢
      constructor <;> linarith

/-- Moving the anchor of the per-segment sum from `s` to `t0` inside the
first segment shifts the sum by `(t0 - s) * r0`. -/
theorem seg_sum_shift (s t0 : ℤ) (r0 : ℚ) (changes : List (ℤ × ℚ)) (tB : ℤ) :
    seg_sum s r0 changes tB = ((t0 - s : ℤ) : ℚ) * r0 + seg_sum t0 r0 changes tB := by
  cases changes with
  | nil =>
      simp only [seg_sum]
      push_cast
      ring
  | cons hd rest =>
      obtain ⟨t1, r1⟩ := hd
      simp only [seg_sum]
      push_cast
      ring

/-- C4.  Duration correctness across segments: take `A = now()` at reading
`t0`, apply any sequence of `set_speed` calls, then take `B = now()` at
reading `tB`.  The duration `B - A` is within `(number of rate changes) + 2`
ticks of the exact per-segment sum `Σ (segment monotonic duration_i * rate_i)`
— and it is not `(total monotonic elapsed) * final rate`: with construction at
reading `0` (rate 1), a change to rate `0` at reading `10`, and `tB = 20`,
`B - A = 10` while the naive formula gives `0`. -/
theorem claim_C4 :
    (∀ (sw : stopwatch) (changes : List (ℤ × ℚ)) (t0 tB : ℤ),
      |((stopwatch.now (run_set_speeds sw changes) tB - sw.now t0 : ℤ) : ℚ)
          - seg_sum t0 sw.m_speed changes tB|
        < changes.length + 2) ∧
    (stopwatch.now (run_set_speeds (stopwatch.construct 0 1) [(10, 0)]) 20
        - (stopwatch.construct 0 1).now 0
      ≠ rtrunc (((20 - 0 : ℤ) : ℚ)
          * (run_set_speeds (stopwatch.construct 0 1) [(10, 0)]).m_speed)) := by
  constructor
  · intro sw changes t0 tB
    have h := run_now_err changes sw tB
    rw [seg_sum_shift sw.m_sync.1 t0 sw.m_speed changes tB] at h
    have h0 := now_sub_linear_abs_lt sw t0
    rw [abs_lt] at h h0 ⊢
    push_cast at h h0 ⊢
    constructor <;> linarith
  · have eB : stopwatch.now (run_set_speeds (stopwatch.construct 0 1) [(10, 0)]) 20
        = 10 := by
      norm_num [run_set_speeds, stopwatch.construct, stopwatch.set_speed, stopwatch.now,
        stopwatch.impl_now, rtrunc]
    have eA : (stopwatch.construct 0 1).now 0 = 0 := by
      norm_num [stopwatch.construct, stopwatch.now, stopwatch.impl_now, rtrunc]
    have eS : rtrunc (((20 - 0 : ℤ) : ℚ)
        * (run_set_speeds (stopwatch.construct 0 1) [(10, 0)]).m_speed) = 0 := by
      norm_num [run_set_speeds, stopwatch.construct, stopwatch.set_speed, rtrunc]
    rw [eB, eA, eS]
    decide

/-- C9.  Infallibility: every operation is a total function — any sequence of
calls on any state produces a value and a final state, construction succeeds
for every initial rate, and the documented negative-rate hazard is unchecked:
a stopwatch constructed at reading `0` with rate `-1` simply returns the
below-origin time point `-5` at reading `5`, with no error signalled. -/
theorem claim_C9 :
    (∀ (sw : stopwatch) (ops : List Op),
      ∃ (outs : List Output) (fin : stopwatch), run sw ops = (outs, fin)) ∧
    (∀ (t0 : ℤ) (r : ℚ), ∃ sw : stopwatch, stopwatch.construct t0 r = sw) ∧
    (stopwatch.construct 0 (-1)).now 5 < 0 := by
  refine ⟨fun sw ops => ⟨(run sw ops).1, (run sw ops).2, rfl⟩,
    fun t0 r => ⟨stopwatch.construct t0 r, rfl⟩, ?_⟩
  have e : (stopwatch.construct 0 (-1)).now 5 = -5 := by
    norm_num [stopwatch.construct, stopwatch.now, stopwatch.impl_now, rtrunc]
    rw [show (-5 : ℚ) = ((-5 : ℤ) : ℚ) from by norm_num]
    exact Int.ceil_intCast (-5)
  omega

/-- C10.  Determinism of the whole interface: the behaviour of a stopwatch
depends only on its explicit state (the synchronization pair and the speed)
and the supplied steady-clock readings — two stopwatches agreeing on that
state produce identical outputs and identical final states under any call
sequence. -/
theorem claim_C10 (sw1 sw2 : stopwatch) (ops : List Op)
    (h1 : sw1.m_sync = sw2.m_sync) (h2 : sw1.m_speed = sw2.m_speed) :
    run sw1 ops = run sw2 ops := by
  obtain ⟨s1, p1⟩ := sw1
  obtain ⟨s2, p2⟩ := sw2
  cases h1
  cases h2
  rfl

/-- Witness for C10: a directly built state and a constructed one agreeing on
all fields behave identically on a concrete call sequence. -/
theorem claim_C10_witness :
    (stopwatch.mk (0, 0) 1).m_sync = (stopwatch.construct 0 1).m_sync ∧
    (stopwatch.mk (0, 0) 1).m_speed = (stopwatch.construct 0 1).m_speed ∧
    run (stopwatch.mk (0, 0) 1) [Op.callNow 3, Op.callSetSpeed 4 2, Op.callSpeed]
      = run (stopwatch.construct 0 1) [Op.callNow 3, Op.callSetSpeed 4 2, Op.callSpeed] :=
  ⟨rfl, rfl,
    claim_C10 (stopwatch.mk (0, 0) 1) (stopwatch.construct 0 1)
      [Op.callNow 3, Op.callSetSpeed 4 2, Op.callSpeed] rfl rfl⟩
